import Mathlib

/-
Verification of the generate-docs repository: the diff partitioner
(scripts/generate_docs.py, function _partition_diff_by_file_name) and the
run orchestrator (scripts/generate_docs.py, function update_docs), embedded
shallowly.  Python strings are Lean strings; the two Python string
operations the partitioner uses (startswith and split on a multi-character
separator) are modelled by structurally recursive functions on the
underlying character lists so that all definitions evaluate inside the
kernel.  The orchestrator is embedded as explicit state passing over a
state holding the filesystem (an association list from path to content)
and a trace of observable events (remote calls, file writes, git
invocations, diagnostics); Python exceptions are the error side of an
Except value carrying the exception message.
-/

/-! ## String primitives modelling Python str.startswith and str.split -/

/-- Model of Python str.startswith on the underlying character list. -/
def strStartsWith (s p : String) : Bool :=
  p.data.isPrefixOf s.data

/-- Scan for the first occurrence of a separator: returns the part before it
and the part after it, or none when the separator does not occur. -/
def findSplit (sep : List Char) : List Char → Option (List Char × List Char)
  | [] => none
  | c :: cs =>
    if sep.isPrefixOf (c :: cs) then some ([], (c :: cs).drop sep.length)
    else
      match findSplit sep cs with
      | none => none
      | some (pre, post) => some (c :: pre, post)

/-- The separator used by the partitioner to find the b-side path. -/
def sepB : List Char := [' ', 'b', '/']

/-- Element 1 of the Python split of the line on the separator: the text
strictly between the first occurrence and the next occurrence (or the end of
the line when the separator occurs exactly once).  none when the separator
does not occur at all, which is the case where Python raises IndexError. -/
def headerPathChars (l : List Char) : Option (List Char) :=
  match findSplit sepB l with
  | none => none
  | some (_, post) =>
    match findSplit sepB post with
    | none => some post
    | some (mid, _) => some mid

/-- The b-side path extracted from a header line, as in
line.split(" b/")[1] of the source. -/
def headerPath (line : String) : Option String :=
  (headerPathChars line.data).map (fun cs => String.mk cs)

/-! ## The diff partitioner (_partition_diff_by_file_name) -/

/-- The three ways the Python partitioner can raise: the explicit
malformed-diff Exception, the IndexError from indexing the split result, and
the AssertionError from the truthiness assert on the current path. -/
inductive PartError where
  | malformedDiff
  | indexError
  | assertionError
deriving DecidableEq, Repr

/-- Model of appending to a defaultdict(str) entry: the insertion-ordered
dictionary is an association list; an absent key is appended at the end with
the given suffix as its initial value. -/
def appendEntry (m : List (String × String)) (k v : String) : List (String × String) :=
  match m with
  | [] => [(k, v)]
  | (k2, v2) :: rest => if k2 = k then (k2, v2 ++ v) :: rest else (k2, v2) :: appendEntry rest k v

/-- The loop of _partition_diff_by_file_name: curr is the current file path
cursor (None only before the first iteration), acc the dictionary built so
far. -/
def partitionLoop : Option String → List (String × String) → List String →
    Except PartError (List (String × String))
  | _, acc, [] => .ok acc
  | curr, acc, line :: rest =>
    if curr.isNone && !(strStartsWith line "diff --git") then
      .error .malformedDiff
    else
      match (if strStartsWith line "diff --git" then
               match headerPath line with
               | none => Except.error PartError.indexError
               | some p => Except.ok p
             else
               match curr with
               | none => Except.error PartError.assertionError
               | some p => Except.ok p) with
      | .error e => .error e
      | .ok p =>
        if p = "" then .error .assertionError
        else partitionLoop (some p) (appendEntry acc p (line ++ "\n")) rest

/-- _partition_diff_by_file_name from scripts/generate_docs.py. -/
def partition_diff_by_file_name (diff_lines : List String) :
    Except PartError (List (String × String)) :=
  partitionLoop none [] diff_lines

/-! ## Valid diff inputs for the partitioner -/

/-- One per-file block of a unified diff: its b-side path, its header line
and its remaining lines. -/
structure DiffBlock where
  path : String
  header : String
  body : List String

/-- A well-formed block: the header carries the file-header marker and its
b-side path is the nonempty block path, and no body line is itself a
header. -/
def DiffBlock.wf (b : DiffBlock) : Prop :=
  strStartsWith b.header "diff --git" = true ∧
  headerPath b.header = some b.path ∧
  b.path ≠ "" ∧
  ∀ l ∈ b.body, strStartsWith l "diff --git" = false

instance (b : DiffBlock) : Decidable b.wf := by
  unfold DiffBlock.wf; infer_instance

/-- All lines of a block in order. -/
def DiffBlock.lines (b : DiffBlock) : List String := b.header :: b.body

/-- The concatenation of a list of lines, each followed by a newline. -/
def linesText : List String → String
  | [] => ""
  | l :: ls => l ++ "\n" ++ linesText ls

/-- The reassembled text of one block. -/
def DiffBlock.text (b : DiffBlock) : String := linesText b.lines

/-! ## Basic facts about strings and appendEntry -/

theorem str_append_empty (s : String) : s ++ "" = s :=
  String.append_empty s

theorem str_append_assoc (a b c : String) : a ++ b ++ c = a ++ (b ++ c) :=
  String.append_assoc a b c

theorem appendEntry_not_mem (m : List (String × String)) (k v : String)
    (h : k ∉ m.map Prod.fst) : appendEntry m k v = m ++ [(k, v)] := by
  induction m with
  | nil => rfl
  | cons kv rest ih =>
    obtain ⟨k2, v2⟩ := kv
    simp only [List.map_cons, List.mem_cons] at h
    push_neg at h
    rw [appendEntry, if_neg (Ne.symm h.1), ih h.2, List.cons_append]

theorem appendEntry_append_last (m : List (String × String)) (k v v2 : String)
    (h : k ∉ m.map Prod.fst) :
    appendEntry (m ++ [(k, v)]) k v2 = m ++ [(k, v ++ v2)] := by
  induction m with
  | nil => simp [appendEntry]
  | cons kv rest ih =>
    obtain ⟨k3, v3⟩ := kv
    simp only [List.map_cons, List.mem_cons] at h
    push_neg at h
    rw [List.cons_append, appendEntry, if_neg (Ne.symm h.1), ih h.2, List.cons_append]

/-! ## Partitioner correctness on valid inputs -/

theorem partitionLoop_step_notheader (p : String) (acc : List (String × String))
    (line : String) (rest : List String)
    (hl : strStartsWith line "diff --git" = false) (hp : p ≠ "") :
    partitionLoop (some p) acc (line :: rest) =
      partitionLoop (some p) (appendEntry acc p (line ++ "\n")) rest := by
  simp [partitionLoop, hl, hp]

theorem partitionLoop_step_header (curr : Option String) (acc : List (String × String))
    (line : String) (p : String) (rest : List String)
    (hl : strStartsWith line "diff --git" = true)
    (hpath : headerPath line = some p) (hp : p ≠ "") :
    partitionLoop curr acc (line :: rest) =
      partitionLoop (some p) (appendEntry acc p (line ++ "\n")) rest := by
  simp [partitionLoop, hl, hpath, hp]

theorem partitionLoop_body (p : String) (ls : List String)
    (acc : List (String × String)) (t : String) (rest : List String)
    (hp : p ≠ "") (hls : ∀ l ∈ ls, strStartsWith l "diff --git" = false)
    (hmem : p ∉ acc.map Prod.fst) :
    partitionLoop (some p) (acc ++ [(p, t)]) (ls ++ rest) =
      partitionLoop (some p) (acc ++ [(p, t ++ linesText ls)]) rest := by
  induction ls generalizing t with
  | nil => simp [linesText, str_append_empty]
  | cons l ls ih =>
    rw [List.cons_append,
      partitionLoop_step_notheader p _ l _ (hls l (by simp)) hp,
      appendEntry_append_last acc p t (l ++ "\n") hmem,
      ih (t ++ (l ++ "\n")) (fun x hx => hls x (by simp [hx])),
      linesText]
    simp [str_append_assoc]

theorem partitionLoop_block (b : DiffBlock) (curr : Option String)
    (acc : List (String × String)) (rest : List String)
    (hwf : b.wf) (hmem : b.path ∉ acc.map Prod.fst) :
    partitionLoop curr acc (b.lines ++ rest) =
      partitionLoop (some b.path) (acc ++ [(b.path, b.text)]) rest := by
  obtain ⟨h1, h2, h3, h4⟩ := hwf
  show partitionLoop curr acc (b.header :: (b.body ++ rest)) = _
  rw [partitionLoop_step_header curr acc b.header b.path _ h1 h2 h3,
    appendEntry_not_mem acc b.path (b.header ++ "\n") hmem,
    partitionLoop_body b.path b.body acc (b.header ++ "\n") rest h3 h4 hmem]
  show _ = partitionLoop (some b.path) (acc ++ [(b.path, linesText (b.header :: b.body))]) rest
  rw [linesText]

theorem partitionLoop_blocks (blocks : List DiffBlock) (curr : Option String)
    (acc : List (String × String))
    (hwf : ∀ b ∈ blocks, b.wf)
    (hnd : (blocks.map DiffBlock.path).Nodup)
    (hdisj : ∀ b ∈ blocks, b.path ∉ acc.map Prod.fst) :
    partitionLoop curr acc ((blocks.map DiffBlock.lines).flatten) =
      .ok (acc ++ blocks.map (fun b => (b.path, b.text))) := by
  induction blocks generalizing curr acc with
  | nil => simp [partitionLoop]
  | cons b bs ih =>
    simp only [List.map_cons, List.flatten_cons]
    rw [partitionLoop_block b curr acc _ (hwf b (by simp)) (hdisj b (by simp))]
    simp only [List.map_cons, List.nodup_cons] at hnd
    rw [ih (some b.path) (acc ++ [(b.path, b.text)]) (fun x hx => hwf x (by simp [hx])) hnd.2]
    · simp
    · intro x hx
      simp only [List.map_append, List.mem_append, List.map_cons, List.map_nil]
      push_neg
      constructor
      · exact hdisj x (by simp [hx])
      · intro hc
        simp only [List.mem_singleton] at hc
        exact absurd (hc ▸ (List.mem_map_of_mem DiffBlock.path hx)) hnd.1

/-- Claim C1: for every valid concatenation of per-file diff blocks with
well-formed headers and distinct b-side paths, the partitioner returns
exactly one entry per block, keyed by the b-side paths in order of first
appearance, each entry holding exactly that block, every line followed by a
newline. -/
theorem partition_valid_blocks (blocks : List DiffBlock)
    (hwf : ∀ b ∈ blocks, b.wf)
    (hnd : (blocks.map DiffBlock.path).Nodup) :
    partition_diff_by_file_name ((blocks.map DiffBlock.lines).flatten) =
      .ok (blocks.map (fun b => (b.path, b.text))) := by
  rw [partition_diff_by_file_name,
    partitionLoop_blocks blocks none [] hwf hnd (by simp)]
  simp

/-- Concrete two-block input for the C1 theorem. -/
def blocksC1 : List DiffBlock :=
  [⟨"a.py", "diff --git a/a.py b/a.py", ["+x"]⟩,
   ⟨"b.py", "diff --git a/b.py b/b.py", ["+y"]⟩]

/-- Witness for claim C1 at a concrete two-file diff. -/
theorem partition_valid_blocks_witness :
    partition_diff_by_file_name ((blocksC1.map DiffBlock.lines).flatten) =
      .ok (blocksC1.map (fun b => (b.path, b.text))) :=
  partition_valid_blocks blocksC1 (by decide) (by decide)

/-- Claim C8: a nonempty input whose first line does not carry the
file-header marker raises the malformed-diff error. -/
theorem partition_malformed_first_line (l : String) (ls : List String)
    (h : strStartsWith l "diff --git" = false) :
    partition_diff_by_file_name (l :: ls) = .error .malformedDiff := by
  simp [partition_diff_by_file_name, partitionLoop, h]

/-- Witness for claim C8 at a concrete input. -/
theorem partition_malformed_first_line_witness :
    strStartsWith "hello" "diff --git" = false ∧
    partition_diff_by_file_name ["hello"] = .error .malformedDiff :=
  ⟨by decide, partition_malformed_first_line "hello" [] (by decide)⟩

/-- Claim C9: partitioning the empty sequence of lines returns the empty
mapping and raises no error. -/
theorem partition_empty_input :
    partition_diff_by_file_name [] = .ok [] := rfl

/-- Claim C10: a first line that carries the file-header marker but has no
b-path separator makes the partitioner fail with the out-of-range indexing
error, not the malformed-diff error. -/
theorem partition_header_missing_bpath :
    strStartsWith "diff --git nopath" "diff --git" = true ∧
    headerPath "diff --git nopath" = none ∧
    partition_diff_by_file_name ["diff --git nopath"] = .error .indexError ∧
    PartError.indexError ≠ PartError.malformedDiff := by
  refine ⟨by decide, by decide, ?_, by decide⟩
  rfl

/-! ## Data model of the remote client boundary (scripts/client.py) -/

/-- The two output modes of AutodocOutputMode. -/
inductive AutodocOutputMode where
  | inline
  | openapi
deriving DecidableEq, Repr

/-- RepositoryResponse, restricted to the fields the orchestrator reads. -/
structure Repo where
  id : Nat
  name : String
deriving DecidableEq, Repr

/-- RegisterAutodocRunResponse: run identifier and recognized-language map. -/
structure RegisterResp where
  run_id : Nat
  file_path_to_language : List (String × String)
deriving DecidableEq, Repr

/-- GenerateAutodocResponse. -/
structure GenResp where
  documented_content : String
  tokens_used : Nat
deriving DecidableEq, Repr

/-- ExplainAutodocResponse. -/
structure ExplainResp where
  explanation : String
  tokens_used : Nat
deriving DecidableEq, Repr

/-- The deterministic environment the orchestrator interacts with: the
responses of every remote call, of the two git operations, and the value of
the repository-name environment variable.  An error value models the Python
exception raised by that call, carrying the exception message. -/
structure Env where
  github_repo_name : Option String
  listRepositories : Except String (List Repo)
  createRepository : String → Except String Repo
  createAutodocRun : Nat → String → List String → Except String RegisterResp
  generateInlineDocumentation : Nat → String → String → String → String → Except String GenResp
  generateOpenapiSpec : Nat → String → String → String → Except String GenResp
  generateExplanation : Nat → AutodocOutputMode → String → Except String ExplainResp
  markFailed : Nat → String → Except String Unit
  gitDiffPlain : Except String String
  gitAdd : String → Except String Unit
  gitDiffCached : String → Except String String

/-! ## Orchestrator state: filesystem and observable event trace -/

/-- The filesystem as an association list from path to content. -/
abbrev FS := List (String × String)

/-- Lookup of a path in an association list (also used for the
recognized-language mapping). -/
def lookupA (m : List (String × String)) (k : String) : Option String :=
  match m with
  | [] => none
  | (k2, v) :: rest => if k2 = k then some v else lookupA rest k

/-- Overwrite-or-create of a path, as a Python file write. -/
def fsSet (fs : FS) (k v : String) : FS :=
  match fs with
  | [] => [(k, v)]
  | (k2, v2) :: rest => if k2 = k then (k2, v) :: rest else (k2, v2) :: fsSet rest k v

/-- Observable events of one run, newest first in the trace. -/
inductive Event where
  | listReposCall : Event
  | createRepoCall : String → Event
  | createRunCall : Nat → List String → Event
  | generateCall : Nat → String → Event
  | fsWrite : String → String → Event
  | skippedMsg : String → Event
  | gitAddCall : String → Event
  | gitDiffCall : Bool → Option String → Event
  | explanationCall : Nat → String → Event
  | markFailedCall : Nat → String → Event
  | printTotal : Nat → Event
deriving DecidableEq, Repr

/-- Mutable state threaded through the orchestrator. -/
structure OrchState where
  fs : FS
  trace : List Event
deriving DecidableEq, Repr

/-- A stateful computation that can raise a Python exception carrying a
message; the state at raise time is kept (no rollback). -/
abbrev M (α : Type) := OrchState → Except String α × OrchState

/-- Message of a bare AssertionError (its str is empty). -/
def assertFailedMsg : String := ""

/-- Message of the TypeError raised when a path argument is Python None. -/
def typeErrorMsg : String := "TypeError"

/-- Message of the FileNotFoundError raised by open on a missing path. -/
def fileNotFound (p : String) : String := "No such file or directory: " ++ p

/-- Name of the summary artifact written after explanation generation. -/
def prBodyFile : String := "pr-body.txt"

/-! ## The orchestrator (scripts/generate_docs.py, update_docs) -/

/-- The helper _get_or_create_repo_id: resolve the repository by exact name
against the listing, creating it when absent.  The assert on the
environment variable raises when it is unset. -/
def getOrCreateRepoId (env : Env) : M Nat := fun s =>
  match env.github_repo_name with
  | none => (.error assertFailedMsg, s)
  | some repo_name =>
    let s1 : OrchState := ⟨s.fs, .listReposCall :: s.trace⟩
    match env.listRepositories with
    | .error e => (.error e, s1)
    | .ok repos =>
      match repos.find? (fun r => r.name == repo_name) with
      | some r => (.ok r.id, s1)
      | none =>
        let s2 : OrchState := ⟨s1.fs, .createRepoCall repo_name :: s1.trace⟩
        match env.createRepository repo_name with
        | .error e => (.error e, s2)
        | .ok r => (.ok r.id, s2)

/-- The os.path.exists check on the OpenAPI spec path at orchestrator entry
(lines 101 to 103); checking a Python None path raises. -/
def specExists (fs : FS) (mode : AutodocOutputMode) (spec : Option String) :
    Except String Bool :=
  match mode with
  | .inline => .ok false
  | .openapi =>
    match spec with
    | none => .error typeErrorMsg
    | some sp => .ok (lookupA fs sp).isSome

/-- Everything update_docs does before the try block: the spec existence
check, repository resolution and run registration (lines 101 to 109).  Any
exception here propagates before a run identifier exists. -/
def preamble (env : Env) (gh : String) (mode : AutodocOutputMode)
    (spec : Option String) (diffs : List (String × String)) : M (Bool × RegisterResp) := fun s =>
  match specExists s.fs mode spec with
  | .error e => (.error e, s)
  | .ok already =>
    match getOrCreateRepoId env s with
    | (.error e, s1) => (.error e, s1)
    | (.ok repo_id, s1) =>
      let s2 : OrchState := ⟨s1.fs, .createRunCall repo_id (diffs.map Prod.fst) :: s1.trace⟩
      match env.createAutodocRun repo_id gh (diffs.map Prod.fst) with
      | .error e => (.error e, s2)
      | .ok run => (.ok (already, run), s2)

/-- One iteration of the per-file loop (lines 114 to 141): skip an
unrecognized path with a diagnostic, read the file, request generation for
the given mode, accumulate tokens and write the returned content back
(inline: the source file itself; openapi: the configured spec path, whose
absence fails the assert). -/
def processFile (env : Env) (mode : AutodocOutputMode) (run : RegisterResp)
    (spec : Option String) (fd : String × String) (total : Nat) : M Nat := fun s =>
  match lookupA run.file_path_to_language fd.1 with
  | none => (.ok total, ⟨s.fs, .skippedMsg fd.1 :: s.trace⟩)
  | some language =>
    match lookupA s.fs fd.1 with
    | none => (.error (fileNotFound fd.1), s)
    | some file_content =>
      let s1 : OrchState := ⟨s.fs, .generateCall run.run_id fd.1 :: s.trace⟩
      match (match mode with
             | .inline => env.generateInlineDocumentation run.run_id fd.1 file_content language fd.2
             | .openapi => env.generateOpenapiSpec run.run_id fd.1 file_content language) with
      | .error e => (.error e, s1)
      | .ok doc_resp =>
        match mode, spec with
        | .inline, _ =>
          (.ok (total + doc_resp.tokens_used),
           ⟨fsSet s1.fs fd.1 doc_resp.documented_content,
            .fsWrite fd.1 doc_resp.documented_content :: s1.trace⟩)
        | .openapi, none => (.error assertFailedMsg, s1)
        | .openapi, some sp =>
          if sp = "" then (.error assertFailedMsg, s1)
          else
            (.ok (total + doc_resp.tokens_used),
             ⟨fsSet s1.fs sp doc_resp.documented_content,
              .fsWrite sp doc_resp.documented_content :: s1.trace⟩)

/-- The per-file loop over the partitioned diff, in partition order. -/
def processFiles (env : Env) (mode : AutodocOutputMode) (run : RegisterResp)
    (spec : Option String) : List (String × String) → Nat → M Nat
  | [], total => fun s => (.ok total, s)
  | fd :: rest, total => fun s =>
    match processFile env mode run spec fd total s with
    | (.error e, s1) => (.error e, s1)
    | (.ok total1, s1) => processFiles env mode run spec rest total1 s1

/-- Change detection (lines 143 to 151): the plain working-tree diff in
inline mode or when the spec file pre-existed; otherwise stage the new spec
file and take the cached diff restricted to it. -/
def changeDetect (env : Env) (mode : AutodocOutputMode) (spec : Option String)
    (already : Bool) : M String := fun s =>
  if mode == .inline || already then
    (env.gitDiffPlain, ⟨s.fs, .gitDiffCall false none :: s.trace⟩)
  else
    match spec with
    | none => (.error typeErrorMsg, s)
    | some sp =>
      let s1 : OrchState := ⟨s.fs, .gitAddCall sp :: s.trace⟩
      match env.gitAdd sp with
      | .error e => (.error e, s1)
      | .ok _ =>
        (env.gitDiffCached sp, ⟨s1.fs, .gitDiffCall true (some sp) :: s1.trace⟩)

/-- The body of the try block (lines 112 to 163): per-file processing,
change detection, early bare return on an empty diff (ok none), otherwise
explanation generation, the summary-artifact write and the final token
total (ok with the total). -/
def tryBody (env : Env) (mode : AutodocOutputMode) (spec : Option String)
    (diffs : List (String × String)) (already : Bool) (run : RegisterResp) :
    M (Option Nat) := fun s =>
  match processFiles env mode run spec diffs 0 s with
  | (.error e, s1) => (.error e, s1)
  | (.ok total, s1) =>
    match changeDetect env mode spec already s1 with
    | (.error e, s2) => (.error e, s2)
    | (.ok diff, s2) =>
      if diff.length == 0 then (.ok none, s2)
      else
        let s3 : OrchState := ⟨s2.fs, .explanationCall run.run_id diff :: s2.trace⟩
        match env.generateExplanation run.run_id mode diff with
        | .error e => (.error e, s3)
        | .ok resp =>
          (.ok (some (total + resp.tokens_used)),
           ⟨fsSet s3.fs prBodyFile resp.explanation,
            .fsWrite prBodyFile resp.explanation :: s3.trace⟩)

/-- update_docs from scripts/generate_docs.py.  ok none models the bare
return of the no-change path (Python None); ok (some id) models the normal
return of the run identifier.  An exception inside the try block is first
reported through markFailed against the run identifier; when that report
itself raises, the report failure propagates in place of the original. -/
def update_docs (env : Env) (gh : String) (mode : AutodocOutputMode)
    (diffs : List (String × String)) (spec : Option String) : M (Option Nat) := fun s =>
  match preamble env gh mode spec diffs s with
  | (.error e, s1) => (.error e, s1)
  | (.ok (already, run), s1) =>
    match tryBody env mode spec diffs already run s1 with
    | (.ok none, s2) => (.ok none, s2)
    | (.ok (some total), s2) =>
      (.ok (some run.run_id), ⟨s2.fs, .printTotal total :: s2.trace⟩)
    | (.error e, s2) =>
      let s3 : OrchState := ⟨s2.fs, .markFailedCall run.run_id e :: s2.trace⟩
      match env.markFailed run.run_id e with
      | .ok _ => (.error e, s3)
      | .error e2 => (.error e2, s3)

/-! ## Facts about the filesystem model -/

theorem lookupA_fsSet (fs : FS) (k v g : String) :
    lookupA (fsSet fs k v) g = if k = g then some v else lookupA fs g := by
  induction fs with
  | nil => simp [fsSet, lookupA]
  | cons kv rest ih =>
    obtain ⟨k2, v2⟩ := kv
    by_cases h2 : k2 = k
    · subst h2
      simp only [fsSet, if_pos rfl, lookupA]
      by_cases hg : k2 = g <;> simp [hg]
    · simp only [fsSet, if_neg h2, lookupA]
      by_cases hg : k2 = g
      · subst hg
        have : ¬ k = k2 := fun hh => h2 hh.symm
        simp [this]
      · simp [hg, ih]

theorem lookupA_fsSet_isSome (fs : FS) (k v g : String)
    (h : (lookupA fs g).isSome = true) : (lookupA (fsSet fs k v) g).isSome = true := by
  rw [lookupA_fsSet]
  by_cases hk : k = g <;> simp [hk, h]

/-! ## Characterization of the per-file loop under per-file behavior -/

/-- The write-back target of one recognized file: the file itself in inline
mode, the configured spec path in openapi mode. -/
def tgt (mode : AutodocOutputMode) (spec : Option String) (f : String) : String :=
  match mode with
  | .inline => f
  | .openapi => spec.getD ""

/-- The generation call the loop makes for one recognized file of the given
mode. -/
def genCall (env : Env) (mode : AutodocOutputMode) (rid : Nat)
    (f content lang d : String) : Except String GenResp :=
  match mode with
  | .inline => env.generateInlineDocumentation rid f content lang d
  | .openapi => env.generateOpenapiSpec rid f content lang

/-- Per-file behavior hypothesis: whenever the path is recognized, the
generation call answers ok with a response depending only on the path. -/
def FileBeh (env : Env) (mode : AutodocOutputMode) (rid : Nat)
    (langs : List (String × String)) (resp : String → GenResp)
    (fd : String × String) : Prop :=
  ∀ lang, lookupA langs fd.1 = some lang → ∀ content,
    genCall env mode rid fd.1 content lang fd.2 = Except.ok (resp fd.1)

/-- Filesystem effect of one loop iteration. -/
def stepFs (mode : AutodocOutputMode) (spec : Option String)
    (langs : List (String × String)) (resp : String → GenResp)
    (fs : FS) (fd : String × String) : FS :=
  match lookupA langs fd.1 with
  | none => fs
  | some _ => fsSet fs (tgt mode spec fd.1) (resp fd.1).documented_content

/-- Filesystem after the whole loop. -/
def runFs (mode : AutodocOutputMode) (spec : Option String)
    (langs : List (String × String)) (resp : String → GenResp) :
    FS → List (String × String) → FS
  | fs, [] => fs
  | fs, fd :: rest => runFs mode spec langs resp (stepFs mode spec langs resp fs fd) rest

/-- Chronological events of one loop iteration. -/
def fileEvents (rid : Nat) (mode : AutodocOutputMode) (spec : Option String)
    (langs : List (String × String)) (resp : String → GenResp)
    (fd : String × String) : List Event :=
  match lookupA langs fd.1 with
  | none => [.skippedMsg fd.1]
  | some _ => [.generateCall rid fd.1,
               .fsWrite (tgt mode spec fd.1) (resp fd.1).documented_content]

/-- Chronological events of the whole loop. -/
def runEvents (rid : Nat) (mode : AutodocOutputMode) (spec : Option String)
    (langs : List (String × String)) (resp : String → GenResp) :
    List (String × String) → List Event
  | [] => []
  | fd :: rest => fileEvents rid mode spec langs resp fd ++
      runEvents rid mode spec langs resp rest

/-- Token count accumulated by the loop: recognized files add their
generation tokens, skipped files add nothing. -/
def addTokens (langs : List (String × String)) (resp : String → GenResp) :
    List (String × String) → Nat → Nat
  | [], t => t
  | fd :: rest, t => addTokens langs resp rest
      (match lookupA langs fd.1 with
       | none => t
       | some _ => t + (resp fd.1).tokens_used)

theorem processFiles_ok (env : Env) (mode : AutodocOutputMode) (run : RegisterResp)
    (spec : Option String) (resp : String → GenResp)
    (hspec : mode = .openapi → ∃ sp, spec = some sp ∧ sp ≠ "")
    (diffs : List (String × String)) (t : Nat) (s : OrchState)
    (hbeh : ∀ fd ∈ diffs, FileBeh env mode run.run_id run.file_path_to_language resp fd)
    (hread : ∀ fd ∈ diffs, (lookupA run.file_path_to_language fd.1).isSome = true →
        (lookupA s.fs fd.1).isSome = true) :
    processFiles env mode run spec diffs t s =
      (Except.ok (addTokens run.file_path_to_language resp diffs t),
       ⟨runFs mode spec run.file_path_to_language resp s.fs diffs,
        (runEvents run.run_id mode spec run.file_path_to_language resp diffs).reverse
          ++ s.trace⟩) := by
  induction diffs generalizing t s with
  | nil => simp [processFiles, addTokens, runFs, runEvents]
  | cons fd rest ih =>
    have hb := hbeh fd (by simp)
    cases hl : lookupA run.file_path_to_language fd.1 with
    | none =>
      have hstep : processFile env mode run spec fd t s =
          (.ok t, ⟨s.fs, .skippedMsg fd.1 :: s.trace⟩) := by
        simp [processFile, hl]
      simp only [processFiles, hstep]
      rw [ih t ⟨s.fs, .skippedMsg fd.1 :: s.trace⟩
          (fun x hx => hbeh x (by simp [hx]))
          (fun x hx hrec => hread x (by simp [hx]) hrec)]
      simp [addTokens, runFs, stepFs, runEvents, fileEvents, hl]
    | some lang =>
      have hsome : (lookupA s.fs fd.1).isSome = true :=
        hread fd (by simp) (by rw [hl]; rfl)
      obtain ⟨content, hc⟩ := Option.isSome_iff_exists.mp hsome
      have hg : genCall env mode run.run_id fd.1 content lang fd.2 =
          Except.ok (resp fd.1) := hb lang hl content
      have hstep : processFile env mode run spec fd t s =
          (.ok (t + (resp fd.1).tokens_used),
           ⟨fsSet s.fs (tgt mode spec fd.1) (resp fd.1).documented_content,
            .fsWrite (tgt mode spec fd.1) (resp fd.1).documented_content ::
              .generateCall run.run_id fd.1 :: s.trace⟩) := by
        cases mode with
        | inline =>
          simp only [genCall] at hg
          simp [processFile, hl, hc, hg, tgt]
        | openapi =>
          obtain ⟨sp, hsp, hsp2⟩ := hspec rfl
          subst hsp
          simp only [genCall] at hg
          simp [processFile, hl, hc, hg, tgt, hsp2, Option.getD]
      simp only [processFiles, hstep]
      rw [ih (t + (resp fd.1).tokens_used) _
          (fun x hx => hbeh x (by simp [hx]))
          (fun x hx hrec => by
            have := hread x (by simp [hx]) hrec
            exact lookupA_fsSet_isSome s.fs _ _ _ this)]
      simp [addTokens, runFs, stepFs, runEvents, fileEvents, hl, List.reverse_append]

/-! ## Sequencing and failure shape of the per-file loop -/

theorem processFiles_append (env : Env) (mode : AutodocOutputMode) (run : RegisterResp)
    (spec : Option String) (l1 l2 : List (String × String)) (t : Nat) (s : OrchState) :
    processFiles env mode run spec (l1 ++ l2) t s =
      (match processFiles env mode run spec l1 t s with
       | (.error e, s1) => (.error e, s1)
       | (.ok t1, s1) => processFiles env mode run spec l2 t1 s1) := by
  induction l1 generalizing t s with
  | nil => simp [processFiles]
  | cons fd rest ih =>
    simp only [List.cons_append, processFiles]
    cases hpf : processFile env mode run spec fd t s with
    | mk r s1 =>
      cases r with
      | error e => simp
      | ok t1 => simp [ih t1 s1]

theorem processFile_gen_error (env : Env) (mode : AutodocOutputMode)
    (run : RegisterResp) (spec : Option String) (fd : String × String)
    (t : Nat) (s : OrchState) (lang content e : String)
    (hl : lookupA run.file_path_to_language fd.1 = some lang)
    (hc : lookupA s.fs fd.1 = some content)
    (hg : genCall env mode run.run_id fd.1 content lang fd.2 = Except.error e) :
    processFile env mode run spec fd t s =
      (.error e, ⟨s.fs, .generateCall run.run_id fd.1 :: s.trace⟩) := by
  cases mode with
  | inline =>
    simp only [genCall] at hg
    simp [processFile, hl, hc, hg]
  | openapi =>
    simp only [genCall] at hg
    simp [processFile, hl, hc, hg]

/-! ## Contents of earlier write-backs after the loop (inline mode) -/

theorem lookupA_runFs_not_mem (spec : Option String)
    (langs : List (String × String)) (resp : String → GenResp)
    (pre : List (String × String)) (fs : FS) (f : String)
    (h : f ∉ pre.map Prod.fst) :
    lookupA (runFs .inline spec langs resp fs pre) f = lookupA fs f := by
  induction pre generalizing fs with
  | nil => rfl
  | cons gd rest ih =>
    simp only [List.map_cons, List.mem_cons] at h
    push_neg at h
    rw [runFs, ih _ h.2]
    unfold stepFs
    cases lookupA langs gd.1 with
    | none => rfl
    | some lg =>
      rw [lookupA_fsSet]
      simp [tgt, if_neg (Ne.symm h.1)]

theorem lookupA_runFs_mem (spec : Option String)
    (langs : List (String × String)) (resp : String → GenResp)
    (pre : List (String × String)) (fs : FS)
    (hnd : (pre.map Prod.fst).Nodup)
    (fd : String × String) (hfd : fd ∈ pre)
    (lg : String) (hl : lookupA langs fd.1 = some lg) :
    lookupA (runFs .inline spec langs resp fs pre) fd.1 =
      some (resp fd.1).documented_content := by
  induction pre generalizing fs with
  | nil => cases hfd
  | cons gd rest ih =>
    simp only [List.map_cons, List.nodup_cons] at hnd
    cases hfd with
    | head =>
      rw [runFs, lookupA_runFs_not_mem spec langs resp rest _ fd.1 hnd.1]
      unfold stepFs
      rw [hl, lookupA_fsSet]
      simp [tgt]
    | tail _ hmem => exact ih _ hnd.2 hmem

/-! ## Event classification and trace-extension facts per phase -/

def isExplanationCall : Event → Bool
  | .explanationCall _ _ => true
  | _ => false

def isMarkFailedCall : Event → Bool
  | .markFailedCall _ _ => true
  | _ => false

def isGenerateCallFor (f : String) : Event → Bool
  | .generateCall _ g => g == f
  | _ => false

def isWriteTo (p : String) : Event → Bool
  | .fsWrite q _ => q == p
  | _ => false

/-- Events the pre-run phase may emit. -/
def benignPre : Event → Bool
  | .listReposCall => true
  | .createRepoCall _ => true
  | .createRunCall _ _ => true
  | _ => false

/-- Events change detection may emit. -/
def benignCD : Event → Bool
  | .gitAddCall _ => true
  | .gitDiffCall _ _ => true
  | _ => false

/-- Events the per-file loop may emit: diagnostics, generation calls, and
writes whose target is the write-back target of one of its files. -/
def pfEvent (mode : AutodocOutputMode) (spec : Option String)
    (diffs : List (String × String)) : Event → Prop
  | .skippedMsg _ => True
  | .generateCall _ _ => True
  | .fsWrite p _ => ∃ fd ∈ diffs, p = tgt mode spec fd.1
  | _ => False

theorem pfEvent_mono (mode : AutodocOutputMode) (spec : Option String)
    (l1 l2 : List (String × String)) (hsub : ∀ fd ∈ l1, fd ∈ l2)
    (ev : Event) (h : pfEvent mode spec l1 ev) : pfEvent mode spec l2 ev := by
  cases ev with
  | fsWrite p c =>
    obtain ⟨fd, hfd, hp⟩ := h
    exact ⟨fd, hsub fd hfd, hp⟩
  | skippedMsg f => trivial
  | generateCall r f => trivial
  | _ => exact h.elim

theorem getOrCreateRepoId_events (env : Env) (s : OrchState) :
    ∃ evs, ((getOrCreateRepoId env s).2).trace = evs ++ s.trace ∧
      ∀ ev ∈ evs, benignPre ev = true := by
  cases hn : env.github_repo_name with
  | none =>
    refine ⟨[], ?_, by simp⟩
    simp [getOrCreateRepoId, hn]
  | some rn =>
    cases hl : env.listRepositories with
    | error e =>
      refine ⟨[.listReposCall], ?_, by simp [benignPre]⟩
      simp [getOrCreateRepoId, hn, hl]
    | ok repos =>
      cases hf : repos.find? (fun r => r.name == rn) with
      | some r =>
        refine ⟨[.listReposCall], ?_, by simp [benignPre]⟩
        simp [getOrCreateRepoId, hn, hl, hf]
      | none =>
        cases hc : env.createRepository rn with
        | error e =>
          refine ⟨[.createRepoCall rn, .listReposCall], ?_, by simp [benignPre]⟩
          simp [getOrCreateRepoId, hn, hl, hf, hc]
        | ok r =>
          refine ⟨[.createRepoCall rn, .listReposCall], ?_, by simp [benignPre]⟩
          simp [getOrCreateRepoId, hn, hl, hf, hc]

theorem preamble_events (env : Env) (gh : String) (mode : AutodocOutputMode)
    (spec : Option String) (diffs : List (String × String)) (s : OrchState) :
    ∃ evs, ((preamble env gh mode spec diffs s).2).trace = evs ++ s.trace ∧
      ∀ ev ∈ evs, benignPre ev = true := by
  cases hs : specExists s.fs mode spec with
  | error e =>
    refine ⟨[], ?_, by simp⟩
    simp [preamble, hs]
  | ok already =>
    obtain ⟨evs1, h1, h2⟩ := getOrCreateRepoId_events env s
    cases hg : getOrCreateRepoId env s with
    | mk r s1 =>
      rw [hg] at h1
      have h1b : s1.trace = evs1 ++ s.trace := h1
      cases r with
      | error e =>
        refine ⟨evs1, ?_, h2⟩
        simp only [preamble, hs, hg]
        exact h1b
      | ok repo_id =>
        cases hc : env.createAutodocRun repo_id gh (diffs.map Prod.fst) with
        | error e =>
          refine ⟨.createRunCall repo_id (diffs.map Prod.fst) :: evs1, ?_, ?_⟩
          · simp [preamble, hs, hg, hc, h1b]
          · intro ev hev
            rcases List.mem_cons.mp hev with rfl | hev2
            · rfl
            · exact h2 ev hev2
        | ok run =>
          refine ⟨.createRunCall repo_id (diffs.map Prod.fst) :: evs1, ?_, ?_⟩
          · simp [preamble, hs, hg, hc, h1b]
          · intro ev hev
            rcases List.mem_cons.mp hev with rfl | hev2
            · rfl
            · exact h2 ev hev2

theorem processFile_events (env : Env) (mode : AutodocOutputMode)
    (run : RegisterResp) (spec : Option String) (fd : String × String)
    (t : Nat) (s : OrchState) :
    ∃ evs, ((processFile env mode run spec fd t s).2).trace = evs ++ s.trace ∧
      ∀ ev ∈ evs, pfEvent mode spec [fd] ev := by
  cases hl : lookupA run.file_path_to_language fd.1 with
  | none =>
    refine ⟨[.skippedMsg fd.1], ?_, by simp [pfEvent]⟩
    simp [processFile, hl]
  | some lang =>
    cases hc : lookupA s.fs fd.1 with
    | none =>
      refine ⟨[], ?_, by simp⟩
      simp [processFile, hl, hc]
    | some content =>
      cases hg : genCall env mode run.run_id fd.1 content lang fd.2 with
      | error e =>
        refine ⟨[.generateCall run.run_id fd.1], ?_, by simp [pfEvent]⟩
        cases mode with
        | inline =>
          simp only [genCall] at hg
          simp [processFile, hl, hc, hg]
        | openapi =>
          simp only [genCall] at hg
          simp [processFile, hl, hc, hg]
      | ok doc_resp =>
        cases mode with
        | inline =>
          simp only [genCall] at hg
          refine ⟨[.fsWrite fd.1 doc_resp.documented_content,
                   .generateCall run.run_id fd.1], ?_, ?_⟩
          · simp [processFile, hl, hc, hg]
          · intro ev hev
            rcases List.mem_cons.mp hev with rfl | hev2
            · exact ⟨fd, by simp, by simp [tgt]⟩
            · rcases List.mem_singleton.mp hev2 with rfl
              trivial
        | openapi =>
          simp only [genCall] at hg
          cases spec with
          | none =>
            refine ⟨[.generateCall run.run_id fd.1], ?_, by simp [pfEvent]⟩
            simp [processFile, hl, hc, hg]
          | some sp =>
            by_cases hsp : sp = ""
            · refine ⟨[.generateCall run.run_id fd.1], ?_, by simp [pfEvent]⟩
              simp [processFile, hl, hc, hg, hsp]
            · refine ⟨[.fsWrite sp doc_resp.documented_content,
                       .generateCall run.run_id fd.1], ?_, ?_⟩
              · simp [processFile, hl, hc, hg, hsp]
              · intro ev hev
                rcases List.mem_cons.mp hev with rfl | hev2
                · exact ⟨fd, by simp, by simp [tgt]⟩
                · rcases List.mem_singleton.mp hev2 with rfl
                  trivial

theorem processFiles_events (env : Env) (mode : AutodocOutputMode)
    (run : RegisterResp) (spec : Option String)
    (diffs : List (String × String)) (t : Nat) (s : OrchState) :
    ∃ evs, ((processFiles env mode run spec diffs t s).2).trace = evs ++ s.trace ∧
      ∀ ev ∈ evs, pfEvent mode spec diffs ev := by
  induction diffs generalizing t s with
  | nil => exact ⟨[], rfl, by simp⟩
  | cons fd rest ih =>
    obtain ⟨evs1, h1, h2⟩ := processFile_events env mode run spec fd t s
    simp only [processFiles]
    cases hpf : processFile env mode run spec fd t s with
    | mk r s1 =>
      rw [hpf] at h1
      have h1b : s1.trace = evs1 ++ s.trace := h1
      cases r with
      | error e =>
        refine ⟨evs1, h1b, fun ev hev => ?_⟩
        exact pfEvent_mono mode spec [fd] (fd :: rest)
          (by intro x hx; simp at hx; simp [hx]) ev (h2 ev hev)
      | ok t1 =>
        obtain ⟨evs2, h3, h4⟩ := ih t1 s1
        refine ⟨evs2 ++ evs1, by simp [h3, h1b], fun ev hev => ?_⟩
        rcases List.mem_append.mp hev with hev2 | hev2
        · exact pfEvent_mono mode spec rest (fd :: rest)
            (by intro x hx; simp [hx]) ev (h4 ev hev2)
        · exact pfEvent_mono mode spec [fd] (fd :: rest)
            (by intro x hx; simp at hx; simp [hx]) ev (h2 ev hev2)

theorem changeDetect_events (env : Env) (mode : AutodocOutputMode)
    (spec : Option String) (already : Bool) (s : OrchState) :
    ∃ evs, ((changeDetect env mode spec already s).2).trace = evs ++ s.trace ∧
      ∀ ev ∈ evs, benignCD ev = true := by
  by_cases hc : (mode == .inline || already) = true
  · refine ⟨[.gitDiffCall false none], ?_, by simp [benignCD]⟩
    simp [changeDetect, hc]
  · cases spec with
    | none =>
      refine ⟨[], ?_, by simp⟩
      simp [changeDetect, hc]
    | some sp =>
      cases hg : env.gitAdd sp with
      | error e =>
        refine ⟨[.gitAddCall sp], ?_, by simp [benignCD]⟩
        simp [changeDetect, hc, hg]
      | ok u =>
        refine ⟨[.gitDiffCall true (some sp), .gitAddCall sp], ?_, by simp [benignCD]⟩
        simp [changeDetect, hc, hg]

/-! ## Counting helpers -/

theorem countP_eq_of_all_false (p : Event → Bool) (evs t : List Event)
    (h : ∀ ev ∈ evs, p ev = false) : (evs ++ t).countP p = t.countP p := by
  rw [List.countP_append]
  have hz : evs.countP p = 0 := by
    rw [List.countP_eq_zero]
    intro a ha
    simp [h a ha]
  omega

theorem benignPre_not_expl (ev : Event) (h : benignPre ev = true) :
    isExplanationCall ev = false := by
  cases ev <;> simp [benignPre, isExplanationCall] at h ⊢

theorem benignPre_not_mf (ev : Event) (h : benignPre ev = true) :
    isMarkFailedCall ev = false := by
  cases ev <;> simp [benignPre, isMarkFailedCall] at h ⊢

theorem benignPre_not_write (ev : Event) (p : String) (h : benignPre ev = true) :
    isWriteTo p ev = false := by
  cases ev <;> simp [benignPre, isWriteTo] at h ⊢

theorem benignPre_not_gen (ev : Event) (f : String) (h : benignPre ev = true) :
    isGenerateCallFor f ev = false := by
  cases ev <;> simp [benignPre, isGenerateCallFor] at h ⊢

theorem benignCD_not_expl (ev : Event) (h : benignCD ev = true) :
    isExplanationCall ev = false := by
  cases ev <;> simp [benignCD, isExplanationCall] at h ⊢

theorem benignCD_not_write (ev : Event) (p : String) (h : benignCD ev = true) :
    isWriteTo p ev = false := by
  cases ev <;> simp [benignCD, isWriteTo] at h ⊢

theorem benignCD_not_gen (ev : Event) (f : String) (h : benignCD ev = true) :
    isGenerateCallFor f ev = false := by
  cases ev <;> simp [benignCD, isGenerateCallFor] at h ⊢

theorem pfEvent_not_expl (mode : AutodocOutputMode) (spec : Option String)
    (diffs : List (String × String)) (ev : Event)
    (h : pfEvent mode spec diffs ev) : isExplanationCall ev = false := by
  cases ev <;> simp [pfEvent, isExplanationCall] at h ⊢

theorem pfEvent_not_write_other (mode : AutodocOutputMode) (spec : Option String)
    (diffs : List (String × String)) (ev : Event) (p : String)
    (hp : ∀ fd ∈ diffs, tgt mode spec fd.1 ≠ p)
    (h : pfEvent mode spec diffs ev) : isWriteTo p ev = false := by
  cases ev with
  | fsWrite q c =>
    simp only [pfEvent] at h
    obtain ⟨fd, hfd, hq⟩ := h
    simp only [isWriteTo]
    subst hq
    simp [hp fd hfd]
  | _ => rfl

/-! ## Claim C2: the no-change early exit -/

/-- Claim C2 (amended): when the per-file phase succeeds and the detected
diff is empty, the orchestrator makes no explanation call, writes no summary
artifact, and does not raise, but it returns without a run identifier (the
bare return of the source yields Python None), not the run identifier. -/
theorem update_docs_no_change_behavior
    (env : Env) (gh : String) (mode : AutodocOutputMode)
    (diffs : List (String × String)) (spec : Option String)
    (s0 s1 s2 s3 : OrchState) (already : Bool) (run : RegisterResp) (total : Nat)
    (hpre : preamble env gh mode spec diffs s0 = (Except.ok (already, run), s1))
    (hpf : processFiles env mode run spec diffs 0 s1 = (Except.ok total, s2))
    (hcd : changeDetect env mode spec already s2 = (Except.ok "", s3))
    (hnb : ∀ fd ∈ diffs, tgt mode spec fd.1 ≠ prBodyFile) :
    update_docs env gh mode diffs spec s0 = (Except.ok none, s3) ∧
    s3.trace.countP isExplanationCall = s0.trace.countP isExplanationCall ∧
    s3.trace.countP (isWriteTo prBodyFile) = s0.trace.countP (isWriteTo prBodyFile) := by
  obtain ⟨evs1, e1, b1⟩ := preamble_events env gh mode spec diffs s0
  rw [hpre] at e1
  have e1b : s1.trace = evs1 ++ s0.trace := e1
  obtain ⟨evs2, e2, b2⟩ := processFiles_events env mode run spec diffs 0 s1
  rw [hpf] at e2
  have e2b : s2.trace = evs2 ++ s1.trace := e2
  obtain ⟨evs3, e3, b3⟩ := changeDetect_events env mode spec already s2
  rw [hcd] at e3
  have e3b : s3.trace = evs3 ++ s2.trace := e3
  refine ⟨?_, ?_, ?_⟩
  · simp [update_docs, tryBody, hpre, hpf, hcd, String.length_empty]
  · rw [e3b, e2b, e1b,
      countP_eq_of_all_false _ evs3 _ (fun ev hev => benignCD_not_expl ev (b3 ev hev)),
      countP_eq_of_all_false _ evs2 _ (fun ev hev => pfEvent_not_expl mode spec diffs ev (b2 ev hev)),
      countP_eq_of_all_false _ evs1 _ (fun ev hev => benignPre_not_expl ev (b1 ev hev))]
  · rw [e3b, e2b, e1b,
      countP_eq_of_all_false _ evs3 _ (fun ev hev => benignCD_not_write ev _ (b3 ev hev)),
      countP_eq_of_all_false _ evs2 _
        (fun ev hev => pfEvent_not_write_other mode spec diffs ev _ hnb (b2 ev hev)),
      countP_eq_of_all_false _ evs1 _ (fun ev hev => benignPre_not_write ev _ (b1 ev hev))]

/-- Concrete run registration response for the C2 scenario. -/
def runC2 : RegisterResp := ⟨7, [("a.py", "python")]⟩

/-- Concrete environment for the C2 scenario: generation returns content
identical to the disk content and the working-tree diff is empty. -/
def envC2 : Env :=
  ⟨some "o/r",
   Except.ok [⟨1, "o/r"⟩],
   fun _ => Except.error "unused",
   fun _ _ _ => Except.ok runC2,
   fun _ _ _ _ _ => Except.ok ⟨"old", 5⟩,
   fun _ _ _ _ => Except.error "unused",
   fun _ _ _ => Except.error "unused",
   fun _ _ => Except.ok (),
   Except.ok "",
   fun _ => Except.ok (),
   fun _ => Except.ok ""⟩

def diffsC2 : List (String × String) := [("a.py", "d")]

def s0C2 : OrchState := ⟨[("a.py", "old")], []⟩

def s1C2 : OrchState :=
  ⟨[("a.py", "old")], [.createRunCall 1 ["a.py"], .listReposCall]⟩

def s2C2 : OrchState :=
  ⟨[("a.py", "old")],
   [.fsWrite "a.py" "old", .generateCall 7 "a.py",
    .createRunCall 1 ["a.py"], .listReposCall]⟩

def s3C2 : OrchState :=
  ⟨[("a.py", "old")],
   [.gitDiffCall false none, .fsWrite "a.py" "old", .generateCall 7 "a.py",
    .createRunCall 1 ["a.py"], .listReposCall]⟩

/-- Witness for the amended claim C2 at a concrete no-change run. -/
theorem update_docs_no_change_behavior_witness :
    preamble envC2 "gh" .inline none diffsC2 s0C2 = (Except.ok (false, runC2), s1C2) ∧
    processFiles envC2 .inline runC2 none diffsC2 0 s1C2 = (Except.ok 5, s2C2) ∧
    changeDetect envC2 .inline none false s2C2 = (Except.ok "", s3C2) ∧
    (∀ fd ∈ diffsC2, tgt .inline none fd.1 ≠ prBodyFile) ∧
    (update_docs envC2 "gh" .inline diffsC2 none s0C2 = (Except.ok none, s3C2) ∧
     s3C2.trace.countP isExplanationCall = s0C2.trace.countP isExplanationCall ∧
     s3C2.trace.countP (isWriteTo prBodyFile) = s0C2.trace.countP (isWriteTo prBodyFile)) :=
  ⟨rfl, rfl, rfl, by decide,
   update_docs_no_change_behavior envC2 "gh" .inline diffsC2 none
     s0C2 s1C2 s2C2 s3C2 false runC2 5 rfl rfl rfl (by decide)⟩

/-- Counterexample for claim C2 as stated: at a concrete run where every
write-back equals the disk content and the diff is empty, the source
returns Python None (ok none), not the run identifier. -/
theorem update_docs_no_change_returns_none_cex :
    (preamble envC2 "gh" .inline none diffsC2 s0C2).1 = Except.ok (false, runC2) ∧
    runC2.run_id = 7 ∧
    (update_docs envC2 "gh" .inline diffsC2 none s0C2).1 = Except.ok none ∧
    (update_docs envC2 "gh" .inline diffsC2 none s0C2).1 ≠ Except.ok (some 7) := by
  refine ⟨rfl, rfl, rfl, ?_⟩
  intro h
  rw [show (update_docs envC2 "gh" .inline diffsC2 none s0C2).1 = Except.ok none from rfl] at h
  exact Option.noConfusion (Except.ok.inj h)

/-! ## Claim C3: failure reporting before and after run registration -/

/-- Claim C3: an exception raised after run registration is first reported
Failed with its message against the run identifier and the same exception
then re-raises (when the report succeeds); an exception raised before a run
identifier exists propagates directly and no Failed report is made. -/
theorem update_docs_failure_reporting :
    (∀ (env : Env) (gh : String) (mode : AutodocOutputMode)
       (diffs : List (String × String)) (spec : Option String)
       (s0 s1 s2 : OrchState) (already : Bool) (run : RegisterResp) (e : String),
       preamble env gh mode spec diffs s0 = (Except.ok (already, run), s1) →
       tryBody env mode spec diffs already run s1 = (Except.error e, s2) →
       env.markFailed run.run_id e = Except.ok () →
       update_docs env gh mode diffs spec s0 =
         (Except.error e, ⟨s2.fs, .markFailedCall run.run_id e :: s2.trace⟩)) ∧
    (∀ (env : Env) (gh : String) (mode : AutodocOutputMode)
       (diffs : List (String × String)) (spec : Option String)
       (s0 s1 : OrchState) (e : String),
       preamble env gh mode spec diffs s0 = (Except.error e, s1) →
       update_docs env gh mode diffs spec s0 = (Except.error e, s1) ∧
       s1.trace.countP isMarkFailedCall = s0.trace.countP isMarkFailedCall) := by
  constructor
  · intro env gh mode diffs spec s0 s1 s2 already run e hpre htb hmf
    simp [update_docs, hpre, htb, hmf]
  · intro env gh mode diffs spec s0 s1 e hpre
    refine ⟨by simp [update_docs, hpre], ?_⟩
    obtain ⟨evs1, e1, b1⟩ := preamble_events env gh mode spec diffs s0
    rw [hpre] at e1
    have e1b : s1.trace = evs1 ++ s0.trace := e1
    rw [e1b,
      countP_eq_of_all_false _ evs1 _ (fun ev hev => benignPre_not_mf ev (b1 ev hev))]

def runC3 : RegisterResp := ⟨7, [("a.py", "python")]⟩

/-- Environment for the C3 after-registration scenario: generation raises a
transport error, the Failed report succeeds. -/
def envC3 : Env :=
  ⟨some "o/r",
   Except.ok [⟨1, "o/r"⟩],
   fun _ => Except.error "unused",
   fun _ _ _ => Except.ok runC3,
   fun _ _ _ _ _ => Except.error "boom",
   fun _ _ _ _ => Except.error "unused",
   fun _ _ _ => Except.error "unused",
   fun _ _ => Except.ok (),
   Except.ok "x",
   fun _ => Except.ok (),
   fun _ => Except.ok "x"⟩

def diffsC3 : List (String × String) := [("a.py", "d")]

def s0C3 : OrchState := ⟨[("a.py", "old")], []⟩

def s1C3 : OrchState :=
  ⟨[("a.py", "old")], [.createRunCall 1 ["a.py"], .listReposCall]⟩

def s2C3 : OrchState :=
  ⟨[("a.py", "old")],
   [.generateCall 7 "a.py", .createRunCall 1 ["a.py"], .listReposCall]⟩

/-- Environment for the C3 before-registration scenario: the repository
listing itself raises. -/
def envC3b : Env :=
  ⟨some "o/r",
   Except.error "down",
   fun _ => Except.error "unused",
   fun _ _ _ => Except.error "unused",
   fun _ _ _ _ _ => Except.error "unused",
   fun _ _ _ _ => Except.error "unused",
   fun _ _ _ => Except.error "unused",
   fun _ _ => Except.ok (),
   Except.ok "",
   fun _ => Except.ok (),
   fun _ => Except.ok ""⟩

def s1C3b : OrchState := ⟨[("a.py", "old")], [.listReposCall]⟩

/-- Witness for claim C3 at two concrete runs, one failing after run
registration and one failing before it. -/
theorem update_docs_failure_reporting_witness :
    (preamble envC3 "gh" .inline none diffsC3 s0C3 = (Except.ok (false, runC3), s1C3) ∧
     tryBody envC3 .inline none diffsC3 false runC3 s1C3 = (Except.error "boom", s2C3) ∧
     envC3.markFailed runC3.run_id "boom" = Except.ok () ∧
     update_docs envC3 "gh" .inline diffsC3 none s0C3 =
       (Except.error "boom", ⟨s2C3.fs, .markFailedCall runC3.run_id "boom" :: s2C3.trace⟩)) ∧
    (preamble envC3b "gh" .inline none diffsC3 s0C3 = (Except.error "down", s1C3b) ∧
     (update_docs envC3b "gh" .inline diffsC3 none s0C3 = (Except.error "down", s1C3b) ∧
      s1C3b.trace.countP isMarkFailedCall = s0C3.trace.countP isMarkFailedCall)) :=
  ⟨⟨rfl, rfl, rfl,
    update_docs_failure_reporting.1 envC3 "gh" .inline diffsC3 none
      s0C3 s1C3 s2C3 false runC3 "boom" rfl rfl rfl⟩,
   ⟨rfl,
    update_docs_failure_reporting.2 envC3b "gh" .inline diffsC3 none
      s0C3 s1C3b "down" rfl⟩⟩

/-! ## Claim C4: a failing Failed report -/

/-- Claim C4 (amended): when the Failed report itself raises, the secondary
failure is not swallowed silently: it surfaces to the caller, but the error
reaching the caller carries the report failure message, not the original
message; the original message survives only as the payload of the attempted
report. -/
theorem update_docs_secondary_failure
    (env : Env) (gh : String) (mode : AutodocOutputMode)
    (diffs : List (String × String)) (spec : Option String)
    (s0 s1 s2 : OrchState) (already : Bool) (run : RegisterResp) (e e2 : String)
    (hpre : preamble env gh mode spec diffs s0 = (Except.ok (already, run), s1))
    (htb : tryBody env mode spec diffs already run s1 = (Except.error e, s2))
    (hmf : env.markFailed run.run_id e = Except.error e2) :
    update_docs env gh mode diffs spec s0 =
      (Except.error e2, ⟨s2.fs, .markFailedCall run.run_id e :: s2.trace⟩) := by
  simp [update_docs, hpre, htb, hmf]

def runC4 : RegisterResp := ⟨7, [("a.py", "python")]⟩

/-- Environment for the C4 scenario: generation raises, and the Failed
report raises as well. -/
def envC4 : Env :=
  ⟨some "o/r",
   Except.ok [⟨1, "o/r"⟩],
   fun _ => Except.error "unused",
   fun _ _ _ => Except.ok runC4,
   fun _ _ _ _ _ => Except.error "boom",
   fun _ _ _ _ => Except.error "unused",
   fun _ _ _ => Except.error "unused",
   fun _ _ => Except.error "report-down",
   Except.ok "x",
   fun _ => Except.ok (),
   fun _ => Except.ok "x"⟩

def diffsC4 : List (String × String) := [("a.py", "d")]

def s0C4 : OrchState := ⟨[("a.py", "old")], []⟩

def s1C4 : OrchState :=
  ⟨[("a.py", "old")], [.createRunCall 1 ["a.py"], .listReposCall]⟩

def s2C4 : OrchState :=
  ⟨[("a.py", "old")],
   [.generateCall 7 "a.py", .createRunCall 1 ["a.py"], .listReposCall]⟩

/-- Witness for the amended claim C4 at a concrete run. -/
theorem update_docs_secondary_failure_witness :
    preamble envC4 "gh" .inline none diffsC4 s0C4 = (Except.ok (false, runC4), s1C4) ∧
    tryBody envC4 .inline none diffsC4 false runC4 s1C4 = (Except.error "boom", s2C4) ∧
    envC4.markFailed runC4.run_id "boom" = Except.error "report-down" ∧
    update_docs envC4 "gh" .inline diffsC4 none s0C4 =
      (Except.error "report-down",
       ⟨s2C4.fs, .markFailedCall runC4.run_id "boom" :: s2C4.trace⟩) :=
  ⟨rfl, rfl, rfl,
   update_docs_secondary_failure envC4 "gh" .inline diffsC4 none
     s0C4 s1C4 s2C4 false runC4 "boom" "report-down" rfl rfl rfl⟩

/-- Counterexample for claim C4 as stated: at a concrete run the original
message is the string boom, the Failed report raises with message
report-down, and the error reaching the caller carries the report failure
message, not the original one. -/
theorem update_docs_secondary_failure_cex :
    (tryBody envC4 .inline none diffsC4 false runC4 s1C4).1 = Except.error "boom" ∧
    (update_docs envC4 "gh" .inline diffsC4 none s0C4).1 = Except.error "report-down" ∧
    (update_docs envC4 "gh" .inline diffsC4 none s0C4).1 ≠ Except.error "boom" := by
  refine ⟨rfl, rfl, ?_⟩
  intro h
  rw [show (update_docs envC4 "gh" .inline diffsC4 none s0C4).1 =
      Except.error "report-down" from rfl] at h
  have h2 := Except.error.inj h
  exact absurd h2 (by decide)

/-! ## Claim C5: no rollback of earlier write-backs on a later failure -/

/-- Claim C5: in an inline run whose per-file loop fails at a later file
with a transport error, every earlier recognized file keeps its
written-back content on disk (the failure handling performs no rollback),
the run is reported Failed with the error text against the run identifier,
and the error re-raises to the caller. -/
theorem update_docs_no_rollback
    (env : Env) (gh : String) (diffs pre post : List (String × String))
    (fj dj : String) (spec : Option String) (s0 s1 : OrchState)
    (already : Bool) (run : RegisterResp) (resp : String → GenResp)
    (lang content e : String)
    (hpre : preamble env gh .inline spec diffs s0 = (Except.ok (already, run), s1))
    (hsplit : diffs = pre ++ (fj, dj) :: post)
    (hbeh : ∀ fd ∈ pre, FileBeh env .inline run.run_id run.file_path_to_language resp fd)
    (hread : ∀ fd ∈ pre, (lookupA run.file_path_to_language fd.1).isSome = true →
        (lookupA s1.fs fd.1).isSome = true)
    (hnd : (pre.map Prod.fst).Nodup)
    (hlj : lookupA run.file_path_to_language fj = some lang)
    (hcj : lookupA (runFs .inline spec run.file_path_to_language resp s1.fs pre) fj =
        some content)
    (hgj : env.generateInlineDocumentation run.run_id fj content lang dj = Except.error e)
    (hmf : env.markFailed run.run_id e = Except.ok ()) :
    (update_docs env gh .inline diffs spec s0).1 = Except.error e ∧
    Event.markFailedCall run.run_id e ∈ (update_docs env gh .inline diffs spec s0).2.trace ∧
    (update_docs env gh .inline diffs spec s0).2.fs =
      runFs .inline spec run.file_path_to_language resp s1.fs pre ∧
    ∀ fd ∈ pre, ∀ lg, lookupA run.file_path_to_language fd.1 = some lg →
      lookupA (update_docs env gh .inline diffs spec s0).2.fs fd.1 =
        some (resp fd.1).documented_content := by
  have hpf1 := processFiles_ok env .inline run spec resp (fun h => nomatch h) pre 0 s1 hbeh hread
  have hstep : processFile env .inline run spec (fj, dj)
      (addTokens run.file_path_to_language resp pre 0)
      ⟨runFs .inline spec run.file_path_to_language resp s1.fs pre,
       (runEvents run.run_id .inline spec run.file_path_to_language resp pre).reverse
         ++ s1.trace⟩ =
      (.error e,
       ⟨runFs .inline spec run.file_path_to_language resp s1.fs pre,
        .generateCall run.run_id fj ::
          ((runEvents run.run_id .inline spec run.file_path_to_language resp pre).reverse
            ++ s1.trace)⟩) :=
    processFile_gen_error env .inline run spec (fj, dj) _ _ lang content e hlj hcj hgj
  have hpf : processFiles env .inline run spec diffs 0 s1 =
      (.error e,
       ⟨runFs .inline spec run.file_path_to_language resp s1.fs pre,
        .generateCall run.run_id fj ::
          ((runEvents run.run_id .inline spec run.file_path_to_language resp pre).reverse
            ++ s1.trace)⟩) := by
    rw [hsplit, processFiles_append, hpf1]
    simp only [processFiles]
    rw [hstep]
  have htb : tryBody env .inline spec diffs already run s1 =
      (.error e,
       ⟨runFs .inline spec run.file_path_to_language resp s1.fs pre,
        .generateCall run.run_id fj ::
          ((runEvents run.run_id .inline spec run.file_path_to_language resp pre).reverse
            ++ s1.trace)⟩) := by
    simp [tryBody, hpf]
  have hupd : update_docs env gh .inline diffs spec s0 =
      (Except.error e,
       ⟨runFs .inline spec run.file_path_to_language resp s1.fs pre,
        .markFailedCall run.run_id e :: .generateCall run.run_id fj ::
          ((runEvents run.run_id .inline spec run.file_path_to_language resp pre).reverse
            ++ s1.trace)⟩) := by
    simp [update_docs, hpre, htb, hmf]
  refine ⟨by simp [hupd], by simp [hupd], by simp [hupd], ?_⟩
  intro fd hfd lg hl
  simp only [hupd]
  exact lookupA_runFs_mem spec run.file_path_to_language resp pre s1.fs hnd fd hfd lg hl

def runC5 : RegisterResp := ⟨7, [("a.py", "python"), ("b.py", "python")]⟩

/-- The generation responses of the C5 scenario for its successful files. -/
def respC5 : String → GenResp := fun _ => ⟨"docA", 3⟩

/-- Environment for the C5 scenario: the first file generates fine, the
second raises a transport error, the Failed report succeeds. -/
def envC5 : Env :=
  ⟨some "o/r",
   Except.ok [⟨1, "o/r"⟩],
   fun _ => Except.error "unused",
   fun _ _ _ => Except.ok runC5,
   fun _ f _ _ _ => if f = "a.py" then Except.ok ⟨"docA", 3⟩ else Except.error "boom",
   fun _ _ _ _ => Except.error "unused",
   fun _ _ _ => Except.error "unused",
   fun _ _ => Except.ok (),
   Except.ok "x",
   fun _ => Except.ok (),
   fun _ => Except.ok "x"⟩

def diffsC5 : List (String × String) := [("a.py", "d1"), ("b.py", "d2")]

def preC5 : List (String × String) := [("a.py", "d1")]

def s0C5 : OrchState := ⟨[("a.py", "oldA"), ("b.py", "oldB")], []⟩

def s1C5 : OrchState :=
  ⟨[("a.py", "oldA"), ("b.py", "oldB")],
   [.createRunCall 1 ["a.py", "b.py"], .listReposCall]⟩

/-- Witness for claim C5 at a concrete two-file run failing at the second
file. -/
theorem update_docs_no_rollback_witness :
    lookupA runC5.file_path_to_language "b.py" = some "python" ∧
    envC5.generateInlineDocumentation runC5.run_id "b.py" "oldB" "python" "d2" =
      Except.error "boom" ∧
    ((update_docs envC5 "gh" .inline diffsC5 none s0C5).1 = Except.error "boom" ∧
     Event.markFailedCall runC5.run_id "boom" ∈
       (update_docs envC5 "gh" .inline diffsC5 none s0C5).2.trace ∧
     (update_docs envC5 "gh" .inline diffsC5 none s0C5).2.fs =
       runFs .inline none runC5.file_path_to_language respC5 s1C5.fs preC5 ∧
     ∀ fd ∈ preC5, ∀ lg, lookupA runC5.file_path_to_language fd.1 = some lg →
       lookupA (update_docs envC5 "gh" .inline diffsC5 none s0C5).2.fs fd.1 =
         some (respC5 fd.1).documented_content) :=
  ⟨rfl, rfl,
   update_docs_no_rollback envC5 "gh" diffsC5 preC5 [] "b.py" "d2" none s0C5 s1C5
     false runC5 respC5 "python" "oldB" "boom"
     rfl rfl
     (by
       intro fd hfd
       rcases List.mem_singleton.mp hfd with rfl
       intro lg hlg content
       rfl)
     (by decide) (by decide) rfl rfl rfl rfl⟩

/-! ## Claim C6: skipped files and token accounting -/

theorem runEvents_no_genFor (rid : Nat) (mode : AutodocOutputMode)
    (spec : Option String) (langs : List (String × String))
    (resp : String → GenResp) (diffs : List (String × String)) (f : String)
    (hf : lookupA langs f = none) :
    ∀ ev ∈ runEvents rid mode spec langs resp diffs,
      isGenerateCallFor f ev = false := by
  induction diffs with
  | nil => intro ev hev; cases hev
  | cons gd rest ih =>
    intro ev hev
    rw [runEvents] at hev
    rcases List.mem_append.mp hev with h1 | h1
    · unfold fileEvents at h1
      cases hl : lookupA langs gd.1 with
      | none =>
        rw [hl] at h1
        rcases List.mem_singleton.mp h1 with rfl
        rfl
      | some lg =>
        rw [hl] at h1
        rcases List.mem_cons.mp h1 with rfl | h2
        · simp only [isGenerateCallFor]
          by_cases hq : gd.1 = f
          · subst hq
            rw [hl] at hf
            simp at hf
          · simp [hq]
        · rcases List.mem_singleton.mp h2 with rfl
          rfl
    · exact ih ev h1

theorem runEvents_skipped_mem (rid : Nat) (mode : AutodocOutputMode)
    (spec : Option String) (langs : List (String × String))
    (resp : String → GenResp) (diffs : List (String × String))
    (fd : String × String) (hfd : fd ∈ diffs) (hf : lookupA langs fd.1 = none) :
    Event.skippedMsg fd.1 ∈ runEvents rid mode spec langs resp diffs := by
  induction diffs with
  | nil => cases hfd
  | cons gd rest ih =>
    rw [runEvents]
    rcases List.mem_cons.mp hfd with rfl | h2
    · apply List.mem_append_left
      unfold fileEvents
      rw [hf]
      simp
    · exact List.mem_append_right _ (ih h2)

/-- Claim C6: a submitted path absent from the recognized-language mapping
is skipped with a diagnostic and without raising, no generation call is
made for it, and the printed token total is the sum of the generation
tokens of the processed files plus the explanation tokens, skipped files
contributing zero. -/
theorem update_docs_skip_accounting
    (env : Env) (gh : String) (mode : AutodocOutputMode)
    (diffs : List (String × String)) (spec : Option String)
    (s0 s1 s3 : OrchState) (already : Bool) (run : RegisterResp)
    (resp : String → GenResp) (d : String) (eresp : ExplainResp)
    (hstart : s0.trace = [])
    (hspec : mode = .openapi → ∃ sp, spec = some sp ∧ sp ≠ "")
    (hpre : preamble env gh mode spec diffs s0 = (Except.ok (already, run), s1))
    (hbeh : ∀ fd ∈ diffs, FileBeh env mode run.run_id run.file_path_to_language resp fd)
    (hread : ∀ fd ∈ diffs, (lookupA run.file_path_to_language fd.1).isSome = true →
        (lookupA s1.fs fd.1).isSome = true)
    (hcd : changeDetect env mode spec already
        ⟨runFs mode spec run.file_path_to_language resp s1.fs diffs,
         (runEvents run.run_id mode spec run.file_path_to_language resp diffs).reverse
           ++ s1.trace⟩ = (Except.ok d, s3))
    (hd : (d.length == 0) = false)
    (hexp : env.generateExplanation run.run_id mode d = Except.ok eresp) :
    (update_docs env gh mode diffs spec s0).1 = Except.ok (some run.run_id) ∧
    Event.printTotal (addTokens run.file_path_to_language resp diffs 0 + eresp.tokens_used)
      ∈ (update_docs env gh mode diffs spec s0).2.trace ∧
    ∀ fd ∈ diffs, lookupA run.file_path_to_language fd.1 = none →
      Event.skippedMsg fd.1 ∈ (update_docs env gh mode diffs spec s0).2.trace ∧
      (update_docs env gh mode diffs spec s0).2.trace.countP
        (isGenerateCallFor fd.1) = 0 := by
  have hpf := processFiles_ok env mode run spec resp hspec diffs 0 s1 hbeh hread
  obtain ⟨evs1, e1, b1⟩ := preamble_events env gh mode spec diffs s0
  rw [hpre] at e1
  have e1b : s1.trace = evs1 ++ s0.trace := e1
  obtain ⟨evs3, e3, b3⟩ := changeDetect_events env mode spec already
    ⟨runFs mode spec run.file_path_to_language resp s1.fs diffs,
     (runEvents run.run_id mode spec run.file_path_to_language resp diffs).reverse
       ++ s1.trace⟩
  rw [hcd] at e3
  have e3b : s3.trace = evs3 ++
      ((runEvents run.run_id mode spec run.file_path_to_language resp diffs).reverse
        ++ s1.trace) := e3
  have hupd : update_docs env gh mode diffs spec s0 =
      (Except.ok (some run.run_id),
       ⟨fsSet s3.fs prBodyFile eresp.explanation,
        .printTotal (addTokens run.file_path_to_language resp diffs 0 + eresp.tokens_used) ::
        .fsWrite prBodyFile eresp.explanation ::
        .explanationCall run.run_id d :: s3.trace⟩) := by
    simp [update_docs, tryBody, hpre, hpf, hcd, hd, hexp]
  refine ⟨by simp [hupd], ?_, ?_⟩
  · simp only [hupd]
    exact List.mem_cons_self _ _
  · intro fd hfd hnone
    constructor
    · simp only [hupd]
      refine List.mem_cons_of_mem _ (List.mem_cons_of_mem _ (List.mem_cons_of_mem _ ?_))
      rw [e3b]
      refine List.mem_append_right _ (List.mem_append_left _ ?_)
      rw [List.mem_reverse]
      exact runEvents_skipped_mem run.run_id mode spec run.file_path_to_language
        resp diffs fd hfd hnone
    · simp only [hupd]
      rw [List.countP_eq_zero]
      intro a ha
      simp only [List.mem_cons] at ha
      rcases ha with rfl | rfl | rfl | ha
      · simp [isGenerateCallFor]
      · simp [isGenerateCallFor]
      · simp [isGenerateCallFor]
      · rw [e3b] at ha
        rcases List.mem_append.mp ha with h1 | h1
        · simp [benignCD_not_gen a fd.1 (b3 a h1)]
        · rcases List.mem_append.mp h1 with h2 | h2
          · rw [List.mem_reverse] at h2
            simp [runEvents_no_genFor run.run_id mode spec run.file_path_to_language
              resp diffs fd.1 hnone a h2]
          · rw [e1b] at h2
            rcases List.mem_append.mp h2 with h3 | h3
            · simp [benignPre_not_gen a fd.1 (b1 a h3)]
            · rw [hstart] at h3
              cases h3

def runC6 : RegisterResp := ⟨7, [("a.py", "python")]⟩

/-- The generation responses of the C6 scenario. -/
def respC6 : String → GenResp := fun _ => ⟨"new", 5⟩

def erespC6 : ExplainResp := ⟨"expl", 2⟩

/-- Environment for the C6 scenario: one recognized file, one path the
language mapping omits, a nonempty diff and a successful explanation. -/
def envC6 : Env :=
  ⟨some "o/r",
   Except.ok [⟨1, "o/r"⟩],
   fun _ => Except.error "unused",
   fun _ _ _ => Except.ok runC6,
   fun _ _ _ _ _ => Except.ok ⟨"new", 5⟩,
   fun _ _ _ _ => Except.error "unused",
   fun _ _ _ => Except.ok erespC6,
   fun _ _ => Except.ok (),
   Except.ok "D",
   fun _ => Except.ok (),
   fun _ => Except.ok "D"⟩

def diffsC6 : List (String × String) := [("a.py", "d1"), ("c.txt", "d2")]

def s0C6 : OrchState := ⟨[("a.py", "oldA"), ("c.txt", "x")], []⟩

def s1C6 : OrchState :=
  ⟨[("a.py", "oldA"), ("c.txt", "x")],
   [.createRunCall 1 ["a.py", "c.txt"], .listReposCall]⟩

def s3C6 : OrchState :=
  ⟨[("a.py", "new"), ("c.txt", "x")],
   [.gitDiffCall false none, .skippedMsg "c.txt", .fsWrite "a.py" "new",
    .generateCall 7 "a.py", .createRunCall 1 ["a.py", "c.txt"], .listReposCall]⟩

/-- Witness for claim C6 at a concrete run with one recognized and one
skipped path. -/
theorem update_docs_skip_accounting_witness :
    lookupA runC6.file_path_to_language "c.txt" = none ∧
    ((update_docs envC6 "gh" .inline diffsC6 none s0C6).1 =
       Except.ok (some runC6.run_id) ∧
     Event.printTotal
       (addTokens runC6.file_path_to_language respC6 diffsC6 0 + erespC6.tokens_used)
       ∈ (update_docs envC6 "gh" .inline diffsC6 none s0C6).2.trace ∧
     ∀ fd ∈ diffsC6, lookupA runC6.file_path_to_language fd.1 = none →
       Event.skippedMsg fd.1 ∈ (update_docs envC6 "gh" .inline diffsC6 none s0C6).2.trace ∧
       (update_docs envC6 "gh" .inline diffsC6 none s0C6).2.trace.countP
         (isGenerateCallFor fd.1) = 0) :=
  ⟨rfl,
   update_docs_skip_accounting envC6 "gh" .inline diffsC6 none
     s0C6 s1C6 s3C6 false runC6 respC6 "D" erespC6
     rfl (fun h => nomatch h) rfl
     (by
       intro fd hfd
       rcases List.mem_cons.mp hfd with rfl | h2
       · intro lg hlg content
         rfl
       · rcases List.mem_singleton.mp h2 with rfl
         intro lg hlg content
         rw [show lookupA runC6.file_path_to_language ("c.txt", "d2").1 = none from rfl] at hlg
         exact Option.noConfusion hlg)
     (by decide) rfl rfl rfl⟩

/-! ## Claim C7: which diff the change detection takes -/

theorem preamble_already (env : Env) (gh : String) (mode : AutodocOutputMode)
    (spec : Option String) (diffs : List (String × String))
    (s0 s1 : OrchState) (already : Bool) (run : RegisterResp)
    (hpre : preamble env gh mode spec diffs s0 = (Except.ok (already, run), s1)) :
    specExists s0.fs mode spec = Except.ok already := by
  cases hs : specExists s0.fs mode spec with
  | error e => simp [preamble, hs] at hpre
  | ok alr =>
    cases hg : getOrCreateRepoId env s0 with
    | mk r s2 =>
      cases r with
      | error e => simp [preamble, hs, hg] at hpre
      | ok rid =>
        cases hc : env.createAutodocRun rid gh (diffs.map Prod.fst) with
        | error e => simp [preamble, hs, hg, hc] at hpre
        | ok run2 =>
          simp [preamble, hs, hg, hc] at hpre
          rw [hpre.1.1]

/-- Claim C7: in inline mode, and in openapi mode when the spec file
pre-existed at orchestrator entry, the detected diff is the plain
working-tree diff; in openapi mode when it did not, the spec file is first
staged and the detected diff is the cached diff restricted to that file;
and the pre-existence flag is exactly the existence of the spec path on
the filesystem at orchestrator entry. -/
theorem change_detection_mode_selection :
    (∀ (env : Env) (spec : Option String) (already : Bool) (s : OrchState),
       changeDetect env .inline spec already s =
         (env.gitDiffPlain, ⟨s.fs, .gitDiffCall false none :: s.trace⟩)) ∧
    (∀ (env : Env) (spec : Option String) (s : OrchState),
       changeDetect env .openapi spec true s =
         (env.gitDiffPlain, ⟨s.fs, .gitDiffCall false none :: s.trace⟩)) ∧
    (∀ (env : Env) (sp : String) (s : OrchState),
       env.gitAdd sp = Except.ok () →
       changeDetect env .openapi (some sp) false s =
         (env.gitDiffCached sp,
          ⟨s.fs, .gitDiffCall true (some sp) :: .gitAddCall sp :: s.trace⟩)) ∧
    (∀ (env : Env) (gh : String) (diffs : List (String × String)) (sp : String)
       (s0 s1 : OrchState) (already : Bool) (run : RegisterResp),
       preamble env gh .openapi (some sp) diffs s0 = (Except.ok (already, run), s1) →
       already = (lookupA s0.fs sp).isSome) := by
  refine ⟨?_, ?_, ?_, ?_⟩
  · intro env spec already s
    simp [changeDetect]
  · intro env spec s
    simp [changeDetect]
  · intro env sp s hga
    simp [changeDetect, hga]
  · intro env gh diffs sp s0 s1 already run hpre
    have h := preamble_already env gh .openapi (some sp) diffs s0 s1 already run hpre
    have hs : specExists s0.fs .openapi (some sp) =
        Except.ok (lookupA s0.fs sp).isSome := rfl
    rw [hs] at h
    exact (Except.ok.inj h).symm

def runC7 : RegisterResp := ⟨9, [("api.py", "python")]⟩

/-- Environment for the C7 scenario. -/
def envC7 : Env :=
  ⟨some "o/r",
   Except.ok [⟨1, "o/r"⟩],
   fun _ => Except.error "unused",
   fun _ _ _ => Except.ok runC7,
   fun _ _ _ _ _ => Except.error "unused",
   fun _ _ _ _ => Except.ok ⟨"specbody", 4⟩,
   fun _ _ _ => Except.error "unused",
   fun _ _ => Except.ok (),
   Except.ok "P",
   fun _ => Except.ok (),
   fun _ => Except.ok "C"⟩

def diffsC7 : List (String × String) := [("api.py", "d")]

def s0C7 : OrchState := ⟨[("api.py", "src")], []⟩

def s1C7 : OrchState :=
  ⟨[("api.py", "src")], [.createRunCall 1 ["api.py"], .listReposCall]⟩

def sW7 : OrchState := ⟨[("api.py", "src")], []⟩

/-- Witness for claim C7 at concrete states for all four branches. -/
theorem change_detection_mode_selection_witness :
    (changeDetect envC7 .inline none false sW7 =
       (envC7.gitDiffPlain, ⟨sW7.fs, .gitDiffCall false none :: sW7.trace⟩)) ∧
    (changeDetect envC7 .openapi (some "spec.yaml") true sW7 =
       (envC7.gitDiffPlain, ⟨sW7.fs, .gitDiffCall false none :: sW7.trace⟩)) ∧
    (envC7.gitAdd "spec.yaml" = Except.ok () ∧
     changeDetect envC7 .openapi (some "spec.yaml") false sW7 =
       (envC7.gitDiffCached "spec.yaml",
        ⟨sW7.fs, .gitDiffCall true (some "spec.yaml") :: .gitAddCall "spec.yaml" :: sW7.trace⟩)) ∧
    (preamble envC7 "gh" .openapi (some "spec.yaml") diffsC7 s0C7 =
       (Except.ok (false, runC7), s1C7) ∧
     false = (lookupA s0C7.fs "spec.yaml").isSome) :=
  ⟨change_detection_mode_selection.1 envC7 none false sW7,
   change_detection_mode_selection.2.1 envC7 (some "spec.yaml") sW7,
   ⟨rfl, change_detection_mode_selection.2.2.1 envC7 "spec.yaml" sW7 rfl⟩,
   ⟨rfl, change_detection_mode_selection.2.2.2 envC7 "gh" diffsC7 "spec.yaml"
      s0C7 s1C7 false runC7 rfl⟩⟩
